import Mathlib

/-
Shallow embedding of src/vocabsieve/importer/KoreaderVocabImporter.py.

Conventions of the embedding:
* Python strings are Lean `String`s; character-level helpers mirror the exact
  Python string method semantics (`str.split(" ")` keeps empty pieces and only
  splits at the space character, `f.readlines()` keeps line terminators, and
  so on).  The helpers are written by structural recursion on `List Char` so
  that concrete runs reduce inside the kernel.
* Values produced by the opaque structured-data decoder (`slpp.decode`) are
  modelled by `PyVal`; `slpp` returns Python `None` on unusable input, which is
  `PyVal.none` here.  Python exceptions relevant to this file are modelled by
  `PyErr`, and fallible Python expressions by `Except PyErr`.
* External collaborators (sentence splitter, date formatting, file reads and
  the decoder) are parameters of the functions that use them, matching the
  injected-dependency structure of the source.
* Side effects on the external lookup recorder are modelled as an explicit
  event trace (`RecEvent`): the `recordLookup(...)` calls in program order
  followed by the `conn.commit()` call.  Read-only calls (`countLookups`) and
  GUI/logging statements are not part of the trace.
-/

namespace KoreaderImport

/-- Python exceptions that the analysed code can raise or catch. -/
inductive PyErr where
  | keyError
  | typeError
  | stopIteration
  | attributeError
  deriving DecidableEq, Repr

/-- Keys of Python dictionaries produced by the slpp decoder (Lua tables can
be keyed by strings or integers). -/
inductive PyKey where
  | s : String → PyKey
  | n : Int → PyKey
  deriving DecidableEq, Repr

/-- Values produced by the opaque structured-data decoder (`slpp.decode`):
nested dictionaries, lists, strings, numbers, and Python `None` (which slpp
returns for undecodable input). -/
inductive PyVal where
  | none : PyVal
  | num : Int → PyVal
  | str : String → PyVal
  | list : List PyVal → PyVal
  | dict : List (PyKey × PyVal) → PyVal

/-! ### Character-level models of the Python string methods used by the code -/

/-- Contiguous-sublist test on character lists: true when `needle` occurs as
a contiguous run inside `hay`. -/
def isInfixList (needle : List Char) : List Char → Bool
  | [] => needle.isEmpty
  | c :: t => needle.isPrefixOf (c :: t) || isInfixList needle t

/-- Python substring test `needle in hay` for strings. -/
def containsSub (needle hay : String) : Bool :=
  isInfixList needle.data hay.data

/-- Python `s.startswith(pre)`. -/
def pyStartswith (s pre : String) : Bool :=
  pre.data.isPrefixOf s.data

/-- Python `s.strip()`: remove leading and trailing whitespace. -/
def pyStrip (s : String) : String :=
  ⟨((s.data.dropWhile Char.isWhitespace).reverse.dropWhile Char.isWhitespace).reverse⟩

/-- Python `s.endswith(t)` restricted to what `removesuffix` needs. -/
def pyRemovesuffix (s suffix : String) : String :=
  if suffix.data.isSuffixOf s.data then
    ⟨s.data.take (s.data.length - suffix.data.length)⟩
  else s

/-- Python `os.path.basename` for POSIX paths: everything after the last
slash. -/
def pyBasename (p : String) : String :=
  ⟨(p.data.reverse.takeWhile (fun c => c ≠ '/')).reverse⟩

/-- Extension part of Python `os.path.splitext(p)`: the part of the final
path component from its last dot on, unless every character before that dot
is itself a dot (leading dots do not start an extension). -/
def pySplitextExt (p : String) : String :=
  let b := (pyBasename p).data
  let rest := b.dropWhile (fun c => c = '.')
  if rest.contains '.' then
    ⟨'.' :: (rest.reverse.takeWhile (fun c => c ≠ '.')).reverse⟩
  else ""

/-- Title fallback of `getBookMetadata` (line 30/33 of the source):
`os.path.basename(path).removesuffix(ext)` where `ext` comes from
`os.path.splitext(path)`. -/
def basenameNoExt (p : String) : String :=
  pyRemovesuffix (pyBasename p) (pySplitextExt p)

/-- Python `f.readlines()` on the already-read text: split into lines, each
line keeping its trailing newline character. -/
def readlinesAux (acc : List Char) : List Char → List (List Char)
  | [] => if acc.isEmpty then [] else [acc.reverse]
  | c :: r =>
    if c = '\n' then (acc.reverse ++ ['\n']) :: readlinesAux [] r
    else readlinesAux (c :: acc) r

/-- Python `s.split(c)` for a single-character separator: split at every
occurrence of the separator, keeping empty pieces. -/
def splitOnChar (sep : Char) : List Char → List (List Char)
  | [] => [[]]
  | c :: r =>
    if c = sep then [] :: splitOnChar sep r
    else
      match splitOnChar sep r with
      | [] => [[c]]
      | t :: ts => (c :: t) :: ts

/-- Python `" ".join(pieces)` at the character level: the pieces in order
with one space character between consecutive pieces. -/
def joinSpace : List (List Char) → List Char
  | [] => []
  | [p] => p
  | p :: q :: ps => p ++ ' ' :: joinSpace (q :: ps)

/-- Metadata preprocessing of `getBookMetadata` (line 24 of the source):
`" ".join("\n".join(f.readlines()[1:]).split(" ")[1:])`.  Lines keep their
terminators (`readlines` semantics), the join re-inserts a newline between
them, the split is on the space character only (empty pieces are kept, tabs
and newlines are not separators), the first piece is dropped, and the rest is
rejoined with single spaces. -/
def preprocessMetadata (text : String) : String :=
  ⟨joinSpace (((splitOnChar ' '
      (List.intercalate ['\n'] ((readlinesAux [] text.data).drop 1))).drop 1))⟩

/-- Python `content.split(marker)` for a fixed non-empty marker string,
implemented with an explicit fuel argument (the length of the input) so that
it is structurally recursive: occurrences are found left to right and are
non-overlapping, and empty pieces are kept. -/
def splitMarkerFuel (marker : List Char) : Nat → List Char → List (List Char)
  | _, [] => [[]]
  | 0, cs => [cs]
  | fuel + 1, c :: rest =>
    if marker.isPrefixOf (c :: rest) then
      [] :: splitMarkerFuel marker fuel ((c :: rest).drop marker.length)
    else
      match splitMarkerFuel marker fuel rest with
      | [] => [[c]]
      | t :: ts => (c :: t) :: ts

/-- Python `s.split(sep)` for a non-empty separator string. -/
def pySplitStr (s sep : String) : List String :=
  (splitMarkerFuel sep.data s.data.length s.data).map (fun cs => ⟨cs⟩)

/-! ### Python value semantics used by the importer -/

/-- Python truthiness of a decoded value: `None`, `0`, the empty string, the
empty list and the empty dict are falsy. -/
def pyTruthy : PyVal → Bool
  | PyVal.none => false
  | PyVal.num n => n ≠ 0
  | PyVal.str s => !s.data.isEmpty
  | PyVal.list l => !l.isEmpty
  | PyVal.dict kvs => !kvs.isEmpty

/-- Python membership test `key in v` for a string key, as the analysed code
uses it: key membership for dicts, substring test for strings, element
equality for lists, and a `TypeError` for values that are not containers. -/
def pyIn (key : String) : PyVal → Except PyErr Bool
  | PyVal.dict kvs => Except.ok (kvs.any (fun kv => kv.1 = PyKey.s key))
  | PyVal.str s => Except.ok (containsSub key s)
  | PyVal.list l =>
      Except.ok (l.any (fun v => match v with
        | PyVal.str t => t = key
        | _ => false))
  | _ => Except.error PyErr.typeError

/-- Python subscript `v[key]` for a string key: dict lookup (`KeyError` when
the key is missing, last assignment wins), `TypeError` on every other value
(string and list subscripts require integers, `None` and numbers are not
subscriptable). -/
def pySubscript (v : PyVal) (key : String) : Except PyErr PyVal :=
  match v with
  | PyVal.dict kvs =>
      match (kvs.filter (fun kv => kv.1 = PyKey.s key)).getLast? with
      | Option.none => Except.error PyErr.keyError
      | Option.some kv => Except.ok kv.2
  | _ => Except.error PyErr.typeError

/-- Python `d.get(k)` on a dict represented as an insertion-ordered
association list: the value of the last assignment to `k`, or `None` when the
key is absent. -/
def pyDictGet (kvs : List (PyKey × PyVal)) (k : PyKey) : PyVal :=
  match (kvs.filter (fun kv => kv.1 = k)).getLast? with
  | Option.none => PyVal.none
  | Option.some kv => kv.2

/-! ### Data model -/

/-- Output record of the importer (models/ReadingNote as used here). -/
structure ReadingNote where
  lookup_term : String
  sentence : String
  book_name : String
  date : String
  deriving DecidableEq, Repr

/-- One row of the device vocabulary table:
`SELECT create_time, word, title_id, prev_context, next_context FROM
vocabulary`.  The context columns are nullable. -/
structure VocabRow where
  create_time : Int
  word : String
  title_id : Int
  prev_context : Option String
  next_context : Option String
  deriving DecidableEq, Repr

/-- Lookup record forwarded to the external recorder; the word comes from a
decoded history entry and is therefore an arbitrary decoded value. -/
structure LookupRecord where
  word : PyVal
  language : String
  source : String

/-- One observable call on the external recorder: `recordLookup(record,
timestamp, commit)` or the final `conn.commit()`. -/
inductive RecEvent where
  | recordLookup : LookupRecord → PyVal → Bool → RecEvent
  | commit : RecEvent

/-- Test for the commit event. -/
def RecEvent.isCommit : RecEvent → Bool
  | RecEvent.commit => true
  | _ => false

/-! ### Vocabulary phase (lines 90-130 of the source) -/

/-- Line 90: `[book[1] for book in metadata if book[0].startswith(langcode)]`.
The metadata list holds `(language, title)` pairs, one per scanned book
file. -/
def booksInLang (metadata : List (String × String)) (langcode : String) :
    List String :=
  (metadata.filter (fun b => pyStartswith b.1 langcode)).map (fun b => b.2)

/-- Lines 102-106 and the lookups on lines 111/127: the `bookmap` dict maps a
title id to the book name, built from the title-table rows whose name is in
the in-language set; a repeated id keeps the last assignment.  `Option.none`
models `title_id not in bookmap`. -/
def bookmapGet (titleRows : List (Int × String)) (bil : List String)
    (tid : Int) : Option String :=
  ((titleRows.filter (fun r => r.1 = tid ∧ bil.contains r.2)).getLast?).map
    (fun r => r.2)

/-- Line 113: the derived context string
`prev_context.strip() + " " + word + " " + next_context.strip()`. -/
def mkCtx (row : VocabRow) : String :=
  pyStrip (row.prev_context.getD "") ++ " " ++ row.word ++ " " ++
    pyStrip (row.next_context.getD "")

/-- Lines 116-119: scan the splitter output in order, overwriting the running
`sentence` variable at every sentence that contains the word. -/
def selectSentence (sentences : List String) (word : String) : String :=
  sentences.foldl (fun acc s => if containsSub word s then s else acc) ""

/-- Truthiness guard of line 112 applied to one nullable context column: the
column must be present and non-empty. -/
def ctxTruthy : Option String → Bool
  | Option.none => false
  | Option.some s => !s.data.isEmpty

/-- Lines 111-130 for a single vocabulary row: the emitted reading note, or
`Option.none` when the row is dropped (book not in the in-language map,
missing or empty context half, or no split sentence containing the word). -/
def processVocabRow (sp : String → List String) (titleRows : List (Int × String))
    (bil : List String) (fd : Int → String) (row : VocabRow) :
    Option ReadingNote :=
  match bookmapGet titleRows bil row.title_id with
  | Option.none => Option.none
  | Option.some bookname =>
    if ctxTruthy row.prev_context && ctxTruthy row.next_context then
      let sentence := selectSentence (sp (mkCtx row)) row.word
      if sentence = "" then Option.none
      else Option.some
        { lookup_term := row.word, sentence := sentence,
          book_name := bookname, date := fd row.create_time }
    else Option.none

/-! ### History phase (lines 135-180 of the source) -/

/-- Word, book title and time extracted from one decoded history entry.  All
three come from a decoded structure, so they are arbitrary decoded values. -/
abbrev Triple := PyVal × PyVal × PyVal

/-- Line 156 applied to the first child of the `data` mapping: the child
must be truthy and pass the three membership tests before `word`,
`book_title` and `time` are read from it (line 157).  The membership test
raises `TypeError` on a truthy number, and reading a field by string
subscript raises `TypeError` on strings and lists, exactly as `pyIn` and
`pySubscript` model.  `Except.ok Option.none` is the silent skip of a child
that fails a test; `Except.error` is a raised Python exception. -/
def extractChild (child : PyVal) : Except PyErr (Option Triple) :=
  if pyTruthy child then
    match pyIn "word" child with
    | Except.error e => Except.error e
    | Except.ok false => Except.ok Option.none
    | Except.ok true =>
      match pyIn "book_title" child with
      | Except.error e => Except.error e
      | Except.ok false => Except.ok Option.none
      | Except.ok true =>
        match pyIn "time" child with
        | Except.error e => Except.error e
        | Except.ok false => Except.ok Option.none
        | Except.ok true =>
          match pySubscript child "word", pySubscript child "book_title",
              pySubscript child "time" with
          | Except.ok w, Except.ok b, Except.ok t =>
              Except.ok (Option.some (w, b, t))
          | Except.error e, _, _ => Except.error e
          | _, Except.error e, _ => Except.error e
          | _, _, Except.error e => Except.error e
  else Except.ok Option.none

/-- Line 155: `entry["data"].get(next(iter(entry["data"])))` together with
the checks of line 156.  Python resolves the `.get` attribute on the data
value before it evaluates the argument `next(iter(..))`, so every data
value that is not a dict — `None`, a number, a string or a list, empty or
not — raises `AttributeError` at the attribute lookup, which line 158 does
not catch.  Only for a dict does the attribute resolve; `next` on an empty
dict then raises the caught `StopIteration`, and on a non-empty dict it
yields the first key, whose value is handed to the child checks. -/
def extractFromData (dv : PyVal) : Except PyErr (Option Triple) :=
  match dv with
  | PyVal.dict [] => Except.error PyErr.stopIteration
  | PyVal.dict ((k, v) :: kvs) => extractChild (pyDictGet ((k, v) :: kvs) k)
  | _ => Except.error PyErr.attributeError

/-- Lines 154-157, entry level: the guard `if "data" in entry` skips the
entry silently when false, raises on non-container entries, and otherwise
hands `entry["data"]` on for child extraction. -/
def extractEntry (entry : PyVal) : Except PyErr (Option Triple) :=
  match pyIn "data" entry with
  | Except.error e => Except.error e
  | Except.ok false => Except.ok Option.none
  | Except.ok true =>
    match pySubscript entry "data" with
    | Except.error e => Except.error e
    | Except.ok dv => extractFromData dv

/-- Exceptions caught by the `except (KeyError, StopIteration, TypeError)`
clause on line 158. -/
def caughtErr : PyErr → Bool
  | PyErr.keyError => true
  | PyErr.stopIteration => true
  | PyErr.typeError => true
  | PyErr.attributeError => false

/-- Lines 151-160: build the list of triples from the decoded entries.  An
entry whose extraction raises a caught exception, or which fails a shape
test, is skipped; any other exception propagates and the whole list is
lost. -/
def extractTriples : List PyVal → Except PyErr (List Triple)
  | [] => Except.ok []
  | e :: rest =>
    match extractEntry e with
    | Except.ok Option.none => extractTriples rest
    | Except.ok (Option.some t) => (extractTriples rest).map (fun l => t :: l)
    | Except.error er =>
        if caughtErr er then extractTriples rest else Except.error er

/-- Python equality `v == s` between a decoded value and a Python string, as
used by the membership test `booktitle in books_in_lang` on line 165. -/
def pyEqStr (v : PyVal) (s : String) : Bool :=
  match v with
  | PyVal.str t => t = s
  | _ => false

/-- Lines 162-176: the recorder calls of one run that reaches the forwarding
loop.  Every triple whose book title equals an in-language book name yields
one `recordLookup(..., commit=False)` call, and the run ends with the single
`conn.commit()` call of line 176. -/
def forwardEvents (langcode : String) (bil : List String)
    (triples : List Triple) : List RecEvent :=
  (triples.filter (fun t => bil.any (fun s => pyEqStr t.2.1 s))).map
    (fun t => RecEvent.recordLookup
      { word := t.1, language := langcode, source := "koreader" } t.2.2 false)
    ++ [RecEvent.commit]

/-- Marker string that delimits history entries (line 141). -/
def historyMarker : String := "LookupHistoryEntry"

/-- Lines 75-182 of `getNotes`, starting after the metadata scan: the
vocabulary phase always produces the returned reading notes; the history
phase runs only when the history file could be found and read (`hist` is its
text, `Option.none` models the caught find/open failure of lines 144-149).
The result is the recorder event trace together with either the returned
notes or the exception that escaped `getNotes`. -/
def getNotesCore (sp : String → List String) (decode : String → PyVal)
    (fd : Int → String) (langcode : String)
    (metadata : List (String × String)) (titleRows : List (Int × String))
    (vocabRows : List VocabRow) (hist : Option String) :
    List RecEvent × Except PyErr (List ReadingNote) :=
  let bil := booksInLang metadata langcode
  let notes := vocabRows.filterMap (processVocabRow sp titleRows bil fd)
  match hist with
  | Option.none => ([], Except.ok notes)
  | Option.some h =>
    let chunks := (pySplitStr h historyMarker).drop 1
    match extractTriples (chunks.map decode) with
    | Except.error e => ([], Except.error e)
    | Except.ok triples => (forwardEvents langcode bil triples, Except.ok notes)

/-! ### Metadata phase (lines 19-34 and 86-88 of the source) -/

/-- Lines 26-27: the accesses `data["doc_props"]["language"]` and
`data["doc_props"]["title"]`, evaluated left to right with the exceptions
they can raise. -/
def docPropsAccess (data : PyVal) : Except PyErr (PyVal × PyVal) :=
  match pySubscript data "doc_props" with
  | Except.error e => Except.error e
  | Except.ok dp =>
    match pySubscript dp "language" with
    | Except.error e => Except.error e
    | Except.ok lang =>
      match pySubscript data "doc_props" with
      | Except.error e => Except.error e
      | Except.ok dp2 =>
        match pySubscript dp2 "title" with
        | Except.error e => Except.error e
        | Except.ok title => Except.ok (lang, title)

/-- Lines 19-34, `getBookMetadata`: `fileText` is the outcome of opening and
reading the metadata file (an open failure is not caught anywhere and
propagates).  On success the text is preprocessed, decoded, and the
`doc_props` fields are read; a `TypeError` or `KeyError` from those accesses
falls back to the configured default language and the base name of the book
file without its extension. -/
def getBookMetadata (decode : String → PyVal) (langdefault path : String)
    (fileText : Except PyErr String) : Except PyErr (PyVal × PyVal) :=
  match fileText with
  | Except.error e => Except.error e
  | Except.ok text =>
    let data := decode (preprocessMetadata text)
    match docPropsAccess data with
    | Except.ok lt => Except.ok lt
    | Except.error PyErr.typeError =>
        Except.ok (PyVal.str langdefault, PyVal.str (basenameNoExt path))
    | Except.error PyErr.keyError =>
        Except.ok (PyVal.str langdefault, PyVal.str (basenameNoExt path))
    | Except.error e => Except.error e

/-- Lines 86-88: collect the metadata of every scanned book file in order;
the loop has no exception handler, so the first failure aborts the whole
run. -/
def collectMeta (g : String → Except PyErr (PyVal × PyVal)) :
    List String → Except PyErr (List (PyVal × PyVal))
  | [] => Except.ok []
  | f :: rest =>
    match g f with
    | Except.error e => Except.error e
    | Except.ok m => (collectMeta g rest).map (fun l => m :: l)

/-- Conversion of decoded metadata pairs to the string pairs the filtering
phase works on.  A non-string language raises at `book[0].startswith` (line
90, `AttributeError`).  A non-string title is mapped to a `TypeError` here:
in Python an out-of-language non-string title raises a `TypeError` when the
skip log of line 93 is formatted, while an in-language non-string title can
never equal a database book name or history title string; the log statement
itself is not otherwise modelled. -/
def metaToPairs : List (PyVal × PyVal) → Except PyErr (List (String × String))
  | [] => Except.ok []
  | (PyVal.str lang, PyVal.str title) :: rest =>
      (metaToPairs rest).map (fun l => (lang, title) :: l)
  | (PyVal.str _, _) :: _ => Except.error PyErr.typeError
  | _ => Except.error PyErr.attributeError

/-- Whole `getNotes` run including the metadata scan of lines 86-88:
`readText` models opening and reading the companion metadata file of a book
file (its failure is an uncaught exception), `decode` the opaque structured
data parser.  The same configured target language is used as the filter code
and as the metadata fallback (both read `settings.value("target_language")`).
-/
def getNotesFull (sp : String → List String) (decode : String → PyVal)
    (fd : Int → String) (langcode : String) (bookfiles : List String)
    (readText : String → Except PyErr String) (titleRows : List (Int × String))
    (vocabRows : List VocabRow) (hist : Option String) :
    List RecEvent × Except PyErr (List ReadingNote) :=
  match collectMeta (fun f => getBookMetadata decode langcode f (readText f))
      bookfiles with
  | Except.error e => ([], Except.error e)
  | Except.ok metaPV =>
    match metaToPairs metaPV with
    | Except.error e => ([], Except.error e)
    | Except.ok metadata =>
        getNotesCore sp decode fd langcode metadata titleRows vocabRows hist

/-! ### Spec-side definitions for the preprocessing claim -/

/-- Split a character list at every character satisfying `p`, keeping empty
pieces. -/
def splitOnPred (p : Char → Bool) : List Char → List (List Char)
  | [] => [[]]
  | c :: r =>
    if p c then [] :: splitOnPred p r
    else
      match splitOnPred p r with
      | [] => [[c]]
      | t :: ts => (c :: t) :: ts

/-- Whitespace tokenisation as the claim words it: the maximal non-empty
runs between whitespace characters (Python `s.split()` with no argument). -/
def splitWhitespace (cs : List Char) : List (List Char) :=
  (splitOnPred Char.isWhitespace cs).filter (fun t => !t.isEmpty)

/-- Lines of a text without their terminators, for the spec reading of
`take all lines but the first`. -/
def specLines (cs : List Char) : List (List Char) :=
  splitOnPred (fun c => c = '\n') cs

/-- Preprocessing as claim C4 words it: take all lines but the first, join
them, split the result into whitespace-separated tokens, drop the first
token, and rejoin the remaining tokens with single spaces, collapsing
embedded whitespace. -/
def preprocessMetadataSpecWords (text : String) : String :=
  ⟨joinSpace ((splitWhitespace
      (List.intercalate ['\n'] ((specLines text.data).drop 1))).drop 1)⟩

/-- Everything after the first space character, or the empty list when there
is no space: the net effect that the amended claim ascribes to the
`split(" ")[1:]` / `" ".join` pair. -/
def afterFirstSpace : List Char → List Char
  | [] => []
  | c :: r => if c = ' ' then r else afterFirstSpace r

/-- Preprocessing as the amended claim words it: join all lines except the
first, each line keeping its trailing newline, with single newlines, and
keep everything after the first space character of that joined tail (the
empty string when it has no space); embedded runs of spaces, tabs and
newlines after that point are preserved unchanged. -/
def preprocessMetadataAmended (text : String) : String :=
  ⟨afterFirstSpace (List.intercalate ['\n'] ((readlinesAux [] text.data).drop 1))⟩

/-- Last element of a list, or the default when the list is empty. -/
def lastD {α : Type _} : List α → α → α
  | [], d => d
  | x :: xs, _ => lastD xs x

end KoreaderImport

namespace KoreaderImport

@[simp] theorem lastD_nil {α : Type _} (d : α) : lastD [] d = d := rfl

@[simp] theorem lastD_cons {α : Type _} (x : α) (l : List α) (d : α) :
    lastD (x :: l) d = lastD l x := rfl

theorem lastD_eq_or_mem {α : Type _} (l : List α) (d : α) :
    lastD l d = d ∨ lastD l d ∈ l := by
  induction l generalizing d with
  | nil => exact Or.inl rfl
  | cons x xs ih =>
    rcases ih x with h | h
    · exact Or.inr (by simp [h])
    · exact Or.inr (by simp [h])

/-- Scanning a list while overwriting the accumulator at every element that
satisfies the predicate yields the last such element (or the initial
accumulator when there is none). -/
theorem foldl_overwrite {α : Type _} (p : α → Bool) (l : List α) (a : α) :
    l.foldl (fun acc s => if p s then s else acc) a = lastD (l.filter p) a := by
  induction l generalizing a with
  | nil => rfl
  | cons x xs ih =>
    simp only [List.foldl_cons, List.filter_cons]
    cases hp : p x <;> simp [hp, ih]

theorem selectSentence_eq (sentences : List String) (w : String) :
    selectSentence sentences w =
      lastD (sentences.filter (fun s => containsSub w s)) "" :=
  foldl_overwrite (fun s => containsSub w s) sentences ""

/-- Inversion of the per-row vocabulary processing: an emitted note pins down
every branch taken on lines 111-130. -/
theorem processVocabRow_eq_some (sp : String → List String)
    (titleRows : List (Int × String)) (bil : List String) (fd : Int → String)
    (row : VocabRow) (note : ReadingNote)
    (h : processVocabRow sp titleRows bil fd row = Option.some note) :
    ∃ bookname, bookmapGet titleRows bil row.title_id = Option.some bookname ∧
      ctxTruthy row.prev_context = true ∧ ctxTruthy row.next_context = true ∧
      selectSentence (sp (mkCtx row)) row.word ≠ "" ∧
      note = { lookup_term := row.word,
               sentence := selectSentence (sp (mkCtx row)) row.word,
               book_name := bookname, date := fd row.create_time } := by
  unfold processVocabRow at h
  cases hbm : bookmapGet titleRows bil row.title_id with
  | none => rw [hbm] at h; exact absurd h (by simp)
  | some bn =>
    rw [hbm] at h
    dsimp only at h
    by_cases hc : ctxTruthy row.prev_context && ctxTruthy row.next_context
    · rw [if_pos hc] at h
      by_cases hs : selectSentence (sp (mkCtx row)) row.word = ""
      · rw [if_pos hs] at h; exact absurd h (by simp)
      · rw [if_neg hs] at h
        refine ⟨bn, rfl, ?_, ?_, hs, ?_⟩
        · exact (Bool.and_eq_true _ _ ▸ hc).1
        · exact (Bool.and_eq_true _ _ ▸ hc).2
        · exact (Option.some.injEq _ _ ▸ h).symm
    · rw [if_neg hc] at h; exact absurd h (by simp)

/-- Notes returned by a run of `getNotesCore` are exactly the per-row results
of the vocabulary phase, whatever the history phase did. -/
theorem getNotesCore_notes (sp : String → List String) (decode : String → PyVal)
    (fd : Int → String) (langcode : String) (metadata : List (String × String))
    (titleRows : List (Int × String)) (vocabRows : List VocabRow)
    (hist : Option String) (evs : List RecEvent) (ns : List ReadingNote)
    (h : getNotesCore sp decode fd langcode metadata titleRows vocabRows hist =
      (evs, Except.ok ns)) :
    ns = vocabRows.filterMap
      (processVocabRow sp titleRows (booksInLang metadata langcode) fd) := by
  unfold getNotesCore at h
  cases hist with
  | none =>
    dsimp only at h
    simpa using (congrArg Prod.snd h).symm
  | some hh =>
    dsimp only at h
    cases hx : extractTriples
        (((pySplitStr hh historyMarker).drop 1).map decode) with
    | error e => rw [hx] at h; simpa using (congrArg Prod.snd h).symm
    | ok triples => rw [hx] at h; simpa using (congrArg Prod.snd h).symm

/-- Sentence of an emitted note: the last splitter sentence containing the
word, which in particular exists. -/
theorem emittedNote_sentence (sp : String → List String)
    (titleRows : List (Int × String)) (bil : List String) (fd : Int → String)
    (row : VocabRow) (note : ReadingNote)
    (h : processVocabRow sp titleRows bil fd row = Option.some note) :
    note.sentence =
      lastD ((sp (mkCtx row)).filter (fun s => containsSub row.word s)) "" ∧
    ∃ s ∈ sp (mkCtx row), containsSub row.word s = true := by
  obtain ⟨bn, _, _, _, hs, hnote⟩ :=
    processVocabRow_eq_some sp titleRows bil fd row note h
  have hsent : note.sentence = selectSentence (sp (mkCtx row)) row.word := by
    rw [hnote]
  rw [selectSentence_eq] at hsent hs
  refine ⟨hsent, ?_⟩
  rcases lastD_eq_or_mem
      ((sp (mkCtx row)).filter (fun s => containsSub row.word s)) "" with he | hm
  · exact absurd he hs
  · rcases List.mem_filter.mp hm with ⟨hmem, hp⟩
    exact ⟨_, hmem, hp⟩

/-- Claim C1: when a note is emitted for a vocabulary entry, its sentence is
the last sentence, in splitter output order, that contains the word as a
literal substring (the scan overwrites a running match variable, so not the
first or any other qualifying sentence), and such a sentence exists;
conversely, for an entry of a mapped book with both context halves truthy
whose last qualifying sentence is non-empty, the note carrying exactly that
sentence is emitted. -/
theorem claim1_last_match_selection (sp : String → List String)
    (titleRows : List (Int × String)) (bil : List String) (fd : Int → String)
    (row : VocabRow) :
    (∀ note, processVocabRow sp titleRows bil fd row = Option.some note →
      note.sentence =
        lastD ((sp (mkCtx row)).filter (fun s => containsSub row.word s)) "" ∧
      ∃ s ∈ sp (mkCtx row), containsSub row.word s = true) ∧
    (∀ bookname, bookmapGet titleRows bil row.title_id = Option.some bookname →
      ctxTruthy row.prev_context = true → ctxTruthy row.next_context = true →
      lastD ((sp (mkCtx row)).filter (fun s => containsSub row.word s)) "" ≠ "" →
      processVocabRow sp titleRows bil fd row = Option.some
        { lookup_term := row.word,
          sentence :=
            lastD ((sp (mkCtx row)).filter (fun s => containsSub row.word s)) "",
          book_name := bookname, date := fd row.create_time }) := by
  constructor
  · intro note h
    exact emittedNote_sentence sp titleRows bil fd row note h
  · intro bookname hbm hp hn hne
    unfold processVocabRow
    rw [hbm]
    dsimp only
    rw [hp, hn]
    simp only [Bool.and_self, if_true]
    rw [selectSentence_eq]
    rw [if_neg hne]

/-- Witness for claim C1: with a splitter producing two sentences that both
contain the word, the emitted note carries the second one, and conversely
the emission equation holds at the same input. -/
theorem claim1_witness :
    processVocabRow (fun _ => ["a w b", "w c"]) [(1, "B")] ["B"]
        (fun _ => "d") ⟨0, "w", 1, Option.some "p", Option.some "n"⟩ =
      Option.some ⟨"w", "w c", "B", "d"⟩ ∧
    (ReadingNote.mk "w" "w c" "B" "d").sentence =
      lastD ((["a w b", "w c"] : List String).filter
        (fun s => containsSub "w" s)) "" := by
  have h := claim1_last_match_selection (fun _ => ["a w b", "w c"]) [(1, "B")]
    ["B"] (fun _ => "d") ⟨0, "w", 1, Option.some "p", Option.some "n"⟩
  exact ⟨h.2 "B" rfl rfl rfl (by decide), (h.1 ⟨"w", "w c", "B", "d"⟩ rfl).1⟩

/-- Claim C2: every note a run returns has a sentence containing its lookup
term as a literal substring; a row with a missing context half produces no
note; a row none of whose split sentences contains the word produces no
note. -/
theorem claim2_note_invariant (sp : String → List String)
    (decode : String → PyVal) (fd : Int → String) (langcode : String)
    (metadata : List (String × String)) (titleRows : List (Int × String))
    (vocabRows : List VocabRow) (hist : Option String) :
    (∀ evs ns, getNotesCore sp decode fd langcode metadata titleRows vocabRows
        hist = (evs, Except.ok ns) →
      ∀ note ∈ ns, containsSub note.lookup_term note.sentence = true) ∧
    (∀ row : VocabRow,
      row.prev_context = Option.none ∨ row.next_context = Option.none →
      processVocabRow sp titleRows (booksInLang metadata langcode) fd row =
        Option.none) ∧
    (∀ row : VocabRow,
      (∀ s ∈ sp (mkCtx row), containsSub row.word s = false) →
      processVocabRow sp titleRows (booksInLang metadata langcode) fd row =
        Option.none) := by
  refine ⟨?_, ?_, ?_⟩
  · intro evs ns hrun note hmem
    rw [getNotesCore_notes sp decode fd langcode metadata titleRows vocabRows
      hist evs ns hrun] at hmem
    obtain ⟨row, _, hrow⟩ := List.mem_filterMap.mp hmem
    obtain ⟨hlast, s, hsmem, hp⟩ := emittedNote_sentence sp titleRows
      (booksInLang metadata langcode) fd row note hrow
    obtain ⟨bn, _, _, _, hne, hnote⟩ := processVocabRow_eq_some sp titleRows
      (booksInLang metadata langcode) fd row note hrow
    have hterm : note.lookup_term = row.word := by rw [hnote]
    rw [selectSentence_eq] at hne
    rcases lastD_eq_or_mem
        ((sp (mkCtx row)).filter (fun t => containsSub row.word t)) "" with he | hm
    · exact absurd he hne
    · have := (List.mem_filter.mp hm).2
      rw [hterm, hlast]
      exact this
  · intro row hrow
    unfold processVocabRow
    cases hbm : bookmapGet titleRows (booksInLang metadata langcode)
        row.title_id with
    | none => rfl
    | some bn =>
      rcases hrow with h | h <;> rw [h] <;> simp [ctxTruthy]
  · intro row hrow
    unfold processVocabRow
    cases hbm : bookmapGet titleRows (booksInLang metadata langcode)
        row.title_id with
    | none => rfl
    | some bn =>
      dsimp only
      by_cases hc : ctxTruthy row.prev_context && ctxTruthy row.next_context
      · rw [if_pos hc]
        have hsel : selectSentence (sp (mkCtx row)) row.word = "" := by
          rw [selectSentence_eq]
          have : (sp (mkCtx row)).filter (fun s => containsSub row.word s) = [] :=
            List.filter_eq_nil_iff.mpr (fun s hs => by simp [hrow s hs])
          rw [this]; rfl
        rw [if_pos hsel]
      · rw [if_neg hc]

/-- Witness for claim C2: one emitted note whose sentence contains its term,
one row dropped for a missing context half, one row dropped because no split
sentence contains its word. -/
theorem claim2_witness :
    containsSub "x" "x" = true ∧
    processVocabRow (fun _ => ["x"]) [(1, "B")] (booksInLang [("en", "B")] "en")
        (fun _ => "d") ⟨0, "x", 1, Option.none, Option.some "b"⟩ =
      Option.none ∧
    processVocabRow (fun _ => ["x"]) [(1, "B")] (booksInLang [("en", "B")] "en")
        (fun _ => "d") ⟨0, "q", 1, Option.some "a", Option.some "b"⟩ =
      Option.none := by
  have h := claim2_note_invariant (fun _ => ["x"]) (fun _ => PyVal.none)
    (fun _ => "d") "en" [("en", "B")] [(1, "B")]
    [⟨0, "x", 1, Option.some "a", Option.some "b"⟩] Option.none
  refine ⟨?_, ?_, ?_⟩
  · exact h.1 [] [⟨"x", "x", "B", "d"⟩] rfl ⟨"x", "x", "B", "d"⟩ (by simp)
  · exact h.2.1 ⟨0, "x", 1, Option.none, Option.some "b"⟩ (Or.inl rfl)
  · exact h.2.2 ⟨0, "q", 1, Option.some "a", Option.some "b"⟩
      (by intro s hs; simp only [List.mem_singleton] at hs; subst hs; rfl)

/-- Names reachable through the bookmap are always in-language book names. -/
theorem bookmapGet_mem (titleRows : List (Int × String)) (bil : List String)
    (tid : Int) (name : String)
    (h : bookmapGet titleRows bil tid = Option.some name) : name ∈ bil := by
  unfold bookmapGet at h
  cases hg : (titleRows.filter
      (fun r => r.1 = tid ∧ bil.contains r.2)).getLast? with
  | none => rw [hg] at h; cases h
  | some r =>
    rw [hg] at h
    have hr : r ∈ titleRows.filter (fun x => x.1 = tid ∧ bil.contains x.2) :=
      List.mem_of_mem_getLast? hg
    have hp := (List.mem_filter.mp hr).2
    have hc : bil.contains r.2 = true := (of_decide_eq_true hp).2
    have hname : r.2 = name := by simpa using h
    rw [← hname]
    exact List.mem_of_elem_eq_true hc

/-- Membership in the in-language book set characterised by the prefix
test. -/
theorem booksInLang_mem (metadata : List (String × String)) (langcode : String)
    (title : String) :
    title ∈ booksInLang metadata langcode ↔
      ∃ lang, (lang, title) ∈ metadata ∧ pyStartswith lang langcode = true := by
  unfold booksInLang
  constructor
  · intro h
    obtain ⟨b, hb, hbt⟩ := List.mem_map.mp h
    have := List.mem_filter.mp hb
    exact ⟨b.1, by rw [← hbt]; exact this.1, this.2⟩
  · intro ⟨lang, hmem, hsw⟩
    exact List.mem_map.mpr ⟨(lang, title),
      List.mem_filter.mpr ⟨hmem, hsw⟩, rfl⟩

/-- Claim C3: a book is retained by the filter exactly when its detected
language starts with the configured code; every returned note names an
in-language book, and a history triple whose book title is not an
in-language name contributes no recorder event. -/
theorem claim3_language_filter (sp : String → List String)
    (decode : String → PyVal) (fd : Int → String) (langcode : String)
    (metadata : List (String × String)) (titleRows : List (Int × String))
    (vocabRows : List VocabRow) (hist : Option String) :
    (∀ lang title, (lang, title) ∈ metadata → pyStartswith lang langcode = true →
      title ∈ booksInLang metadata langcode) ∧
    (∀ title, title ∈ booksInLang metadata langcode →
      ∃ lang, (lang, title) ∈ metadata ∧ pyStartswith lang langcode = true) ∧
    (∀ evs ns, getNotesCore sp decode fd langcode metadata titleRows vocabRows
        hist = (evs, Except.ok ns) →
      ∀ note ∈ ns, note.book_name ∈ booksInLang metadata langcode) ∧
    (∀ (xs ys : List Triple) (w bt ts : PyVal),
      (∀ t, bt = PyVal.str t → t ∉ booksInLang metadata langcode) →
      forwardEvents langcode (booksInLang metadata langcode)
          (xs ++ (w, bt, ts) :: ys) =
        forwardEvents langcode (booksInLang metadata langcode) (xs ++ ys)) := by
  refine ⟨?_, ?_, ?_, ?_⟩
  · intro lang title hmem hsw
    exact (booksInLang_mem metadata langcode title).mpr ⟨lang, hmem, hsw⟩
  · intro title h
    exact (booksInLang_mem metadata langcode title).mp h
  · intro evs ns hrun note hmem
    rw [getNotesCore_notes sp decode fd langcode metadata titleRows vocabRows
      hist evs ns hrun] at hmem
    obtain ⟨row, _, hrow⟩ := List.mem_filterMap.mp hmem
    obtain ⟨bn, hbm, _, _, _, hnote⟩ := processVocabRow_eq_some sp titleRows
      (booksInLang metadata langcode) fd row note hrow
    have : note.book_name = bn := by rw [hnote]
    rw [this]
    exact bookmapGet_mem titleRows (booksInLang metadata langcode)
      row.title_id bn hbm
  · intro xs ys w bt ts hbt
    unfold forwardEvents
    have hpred : (booksInLang metadata langcode).any
        (fun s => pyEqStr (w, bt, ts).2.1 s) = false := by
      cases hq : (booksInLang metadata langcode).any
          (fun s => pyEqStr (w, bt, ts).2.1 s) with
      | false => rfl
      | true =>
        obtain ⟨s, hs, hp⟩ := List.any_eq_true.mp hq
        cases bt with
        | str t =>
          have ht : t = s := by simpa [pyEqStr] using hp
          exact absurd (ht ▸ hs) (hbt t rfl)
        | none => simp [pyEqStr] at hp
        | num n => simp [pyEqStr] at hp
        | list l => simp [pyEqStr] at hp
        | dict kvs => simp [pyEqStr] at hp
    rw [List.filter_append, List.filter_append, List.filter_cons, hpred]
    simp

/-- Witness for claim C3: with one in-language and one out-of-language book,
the French book is excluded and the English one retained; the run returns
only notes naming the English book and a history triple naming the French
book yields no recorder event. -/
theorem claim3_witness :
    ("Beta" ∈ booksInLang [("en", "Alpha"), ("fr", "Beta")] "en" → False) ∧
    "Alpha" ∈ booksInLang [("en", "Alpha"), ("fr", "Beta")] "en" ∧
    (∀ note ∈ [ReadingNote.mk "w" "a w b" "Alpha" "d"],
      note.book_name ∈ booksInLang [("en", "Alpha"), ("fr", "Beta")] "en") ∧
    forwardEvents "en" (booksInLang [("en", "Alpha"), ("fr", "Beta")] "en")
        [(PyVal.str "w", PyVal.str "Beta", PyVal.num 1)] =
      forwardEvents "en" (booksInLang [("en", "Alpha"), ("fr", "Beta")] "en")
        [] := by
  have h := claim3_language_filter (fun s => [s]) (fun _ => PyVal.none)
    (fun _ => "d") "en" [("en", "Alpha"), ("fr", "Beta")] [(1, "Alpha")]
    [⟨0, "w", 1, Option.some "a", Option.some "b"⟩] Option.none
  refine ⟨?_, ?_, ?_, ?_⟩
  · intro hmem
    obtain ⟨lang, hl, hsw⟩ := h.2.1 "Beta" hmem
    simp only [List.mem_cons, List.not_mem_nil, or_false, Prod.mk.injEq] at hl
    rcases hl with ⟨h1, h2⟩ | ⟨h1, h2⟩
    · exact absurd h2 (by decide)
    · rw [h1] at hsw; exact absurd hsw (by decide)
  · exact h.1 "en" "Alpha" (by simp) (by decide)
  · exact h.2.2.1 [] [ReadingNote.mk "w" "a w b" "Alpha" "d"] rfl
  · exact h.2.2.2 [] [] (PyVal.str "w") (PyVal.str "Beta") (PyVal.num 1)
      (by
        intro t ht hmem
        cases ht
        obtain ⟨lang, hl, hsw⟩ := h.2.1 "Beta" hmem
        simp only [List.mem_cons, List.not_mem_nil, or_false, Prod.mk.injEq] at hl
        rcases hl with ⟨h1, h2⟩ | ⟨h1, h2⟩
        · exact absurd h2 (by decide)
        · rw [h1] at hsw; exact absurd hsw (by decide))

/-- Claim C7: when the history log cannot be found or opened, the history
step is skipped entirely: no recorder call is made, no commit is issued, and
the run still returns every vocabulary-derived reading note. -/
theorem claim7_history_failure_skips_step (sp : String → List String)
    (decode : String → PyVal) (fd : Int → String) (langcode : String)
    (metadata : List (String × String)) (titleRows : List (Int × String))
    (vocabRows : List VocabRow) :
    getNotesCore sp decode fd langcode metadata titleRows vocabRows
        Option.none =
      ([], Except.ok (vocabRows.filterMap
        (processVocabRow sp titleRows (booksInLang metadata langcode) fd))) :=
  rfl

/-- Claim C9: in every run that reaches the recorder, every `recordLookup`
call carries `commit=False`, the event trace ends with the single commit,
and that commit is the only one, so all `recordLookup` calls of the run
happen before it. -/
theorem claim9_recorder_call_ordering (sp : String → List String)
    (decode : String → PyVal) (fd : Int → String) (langcode : String)
    (metadata : List (String × String)) (titleRows : List (Int × String))
    (vocabRows : List VocabRow) (h : String) (evs : List RecEvent)
    (ns : List ReadingNote)
    (hrun : getNotesCore sp decode fd langcode metadata titleRows vocabRows
      (Option.some h) = (evs, Except.ok ns)) :
    (∀ ev ∈ evs, RecEvent.isCommit ev = true ∨
      ∃ r t, ev = RecEvent.recordLookup r t false) ∧
    evs.getLast? = Option.some RecEvent.commit ∧
    (evs.filter RecEvent.isCommit).length = 1 := by
  unfold getNotesCore at hrun
  dsimp only at hrun
  cases hx : extractTriples (((pySplitStr h historyMarker).drop 1).map decode) with
  | error e =>
    rw [hx] at hrun
    exact absurd (congrArg Prod.snd hrun) (by simp)
  | ok triples =>
    rw [hx] at hrun
    have hevs : evs = forwardEvents langcode (booksInLang metadata langcode)
        triples := (congrArg Prod.fst hrun).symm
    subst hevs
    unfold forwardEvents
    refine ⟨?_, ?_, ?_⟩
    · intro ev hmem
      rcases List.mem_append.mp hmem with hmem | hmem
      · obtain ⟨t, _, ht⟩ := List.mem_map.mp hmem
        exact Or.inr ⟨_, _, ht.symm⟩
      · rw [List.mem_singleton.mp hmem]
        exact Or.inl rfl
    · exact List.getLast?_concat _
    · rw [List.filter_append]
      have hnil : (List.map (fun t => RecEvent.recordLookup
          { word := t.1, language := langcode, source := "koreader" }
          t.2.2 false) (triples.filter (fun t =>
            (booksInLang metadata langcode).any
              (fun s => pyEqStr t.2.1 s)))).filter RecEvent.isCommit = [] := by
        refine List.filter_eq_nil_iff.mpr ?_
        intro ev hmem
        obtain ⟨t, _, ht⟩ := List.mem_map.mp hmem
        rw [← ht]
        simp [RecEvent.isCommit]
      rw [hnil]
      rfl

/-- Witness for claim C9: a concrete run with one forwarded lookup, checked
against all three ordering properties. -/
theorem claim9_witness :
    (∀ ev ∈ [RecEvent.recordLookup
        ⟨PyVal.str "w", "en", "koreader"⟩ (PyVal.num 3) false,
        RecEvent.commit],
      RecEvent.isCommit ev = true ∨
        ∃ r t, ev = RecEvent.recordLookup r t false) ∧
    ([RecEvent.recordLookup ⟨PyVal.str "w", "en", "koreader"⟩ (PyVal.num 3)
        false, RecEvent.commit] : List RecEvent).getLast? =
      Option.some RecEvent.commit ∧
    (([RecEvent.recordLookup ⟨PyVal.str "w", "en", "koreader"⟩ (PyVal.num 3)
        false, RecEvent.commit] : List RecEvent).filter
      RecEvent.isCommit).length = 1 :=
  claim9_recorder_call_ordering (fun s => [s])
    (fun _ => PyVal.dict [(PyKey.s "data", PyVal.dict [(PyKey.s "k",
      PyVal.dict [(PyKey.s "word", PyVal.str "w"),
        (PyKey.s "book_title", PyVal.str "B"),
        (PyKey.s "time", PyVal.num 3)])])])
    (fun _ => "T") "en" [("en", "B")] [] [] "LookupHistoryEntryZ"
    [RecEvent.recordLookup ⟨PyVal.str "w", "en", "koreader"⟩ (PyVal.num 3)
      false, RecEvent.commit] [] rfl

/-- Claim C10: a context half that is present but equal to the empty string
also fails the truthiness guard of line 112, so the entry produces no
note. -/
theorem claim10_empty_context_half_dropped (sp : String → List String)
    (titleRows : List (Int × String)) (bil : List String) (fd : Int → String)
    (row : VocabRow)
    (h : row.prev_context = Option.some "" ∨
         row.next_context = Option.some "") :
    processVocabRow sp titleRows bil fd row = Option.none := by
  unfold processVocabRow
  cases hbm : bookmapGet titleRows bil row.title_id with
  | none => rfl
  | some bn => rcases h with h | h <;> rw [h] <;> simp [ctxTruthy]

/-- Witness for claim C10: a row whose preceding context is the empty string
is dropped even though the book is mapped and the word occurs in a split
sentence. -/
theorem claim10_witness :
    processVocabRow (fun s => [s]) [(1, "B")] ["B"] (fun _ => "d")
      ⟨0, "w", 1, Option.some "", Option.some "n"⟩ = Option.none :=
  claim10_empty_context_half_dropped (fun s => [s]) [(1, "B")] ["B"]
    (fun _ => "d") ⟨0, "w", 1, Option.some "", Option.some "n"⟩ (Or.inl rfl)

theorem splitOnChar_ne_nil (sep : Char) (l : List Char) :
    splitOnChar sep l ≠ [] := by
  cases l with
  | nil => simp [splitOnChar]
  | cons c r =>
    by_cases hc : c = sep
    · simp [splitOnChar, hc]
    · simp only [splitOnChar, if_neg hc]
      cases splitOnChar sep r <;> simp

theorem joinSpace_splitOnChar (l : List Char) :
    joinSpace (splitOnChar ' ' l) = l := by
  induction l with
  | nil => rfl
  | cons c r ih =>
    by_cases hc : c = ' '
    · subst hc
      simp only [splitOnChar, if_pos rfl]
      cases hs : splitOnChar ' ' r with
      | nil => exact absurd hs (splitOnChar_ne_nil ' ' r)
      | cons t ts =>
        rw [hs] at ih
        simp [joinSpace, ih]
    · simp only [splitOnChar, if_neg hc]
      cases hs : splitOnChar ' ' r with
      | nil => exact absurd hs (splitOnChar_ne_nil ' ' r)
      | cons t ts =>
        rw [hs] at ih
        cases ts with
        | nil => simp [joinSpace] at ih ⊢; rw [ih]
        | cons t2 ts2 =>
          simp only [joinSpace] at ih ⊢
          rw [← ih]
          rfl

theorem joinSpace_drop_one (l : List Char) :
    joinSpace ((splitOnChar ' ' l).drop 1) = afterFirstSpace l := by
  induction l with
  | nil => rfl
  | cons c r ih =>
    by_cases hc : c = ' '
    · subst hc
      simp only [splitOnChar, if_pos rfl, List.drop_one, List.tail_cons,
        afterFirstSpace, if_pos rfl]
      exact joinSpace_splitOnChar r
    · simp only [splitOnChar, if_neg hc]
      cases hs : splitOnChar ' ' r with
      | nil => exact absurd hs (splitOnChar_ne_nil ' ' r)
      | cons t ts =>
        rw [hs] at ih
        simp only [List.drop_one, List.tail_cons] at ih ⊢
        rw [ih]
        simp [afterFirstSpace, hc]

/-- Counterexample to claim C4: on a file whose second line contains a double
space, the implemented preprocessing and the whitespace-token preprocessing
the claim describes disagree (the implementation keeps the empty piece
between the two spaces, the claim collapses it). -/
theorem claim4_counterexample :
    preprocessMetadata "header\nx  a b" = " a b" ∧
    preprocessMetadataSpecWords "header\nx  a b" = "a b" ∧
    preprocessMetadata "header\nx  a b" ≠
      preprocessMetadataSpecWords "header\nx  a b" :=
  ⟨by decide, by decide, by decide⟩

/-- Claim C4 as amended: the preprocessing equals taking all lines but the
first, each keeping its trailing newline, joining them with single newlines,
and keeping exactly the part of that joined tail after its first space
character; splitting is on the space character only, empty pieces are kept,
and no other whitespace is collapsed or used as a separator. -/
theorem claim4_amended_preprocessing (text : String) :
    preprocessMetadata text = preprocessMetadataAmended text :=
  congrArg String.mk (joinSpace_drop_one
    (List.intercalate ['\n'] ((readlinesAux [] text.data).drop 1)))

theorem pySubscript_error (v : PyVal) (key : String) (e : PyErr)
    (h : pySubscript v key = Except.error e) :
    e = PyErr.typeError ∨ e = PyErr.keyError := by
  cases v with
  | dict kvs =>
    cases hg : (kvs.filter (fun kv => kv.1 = PyKey.s key)).getLast? with
    | none =>
      simp only [pySubscript, hg] at h
      exact Or.inr (Except.error.injEq _ _ ▸ h).symm
    | some kv => simp [pySubscript, hg] at h
  | none => exact Or.inl (Except.error.injEq _ _ ▸ h).symm
  | num n => exact Or.inl (Except.error.injEq _ _ ▸ h).symm
  | str s => exact Or.inl (Except.error.injEq _ _ ▸ h).symm
  | list l => exact Or.inl (Except.error.injEq _ _ ▸ h).symm

theorem docPropsAccess_error (data : PyVal) (e : PyErr)
    (h : docPropsAccess data = Except.error e) :
    e = PyErr.typeError ∨ e = PyErr.keyError := by
  unfold docPropsAccess at h
  cases h1 : pySubscript data "doc_props" with
  | error e1 =>
    rw [h1] at h
    dsimp only at h
    have : e1 = e := Except.error.injEq _ _ ▸ h
    exact this ▸ pySubscript_error data "doc_props" e1 h1
  | ok dp =>
    rw [h1] at h
    dsimp only at h
    cases h2 : pySubscript dp "language" with
    | error e2 =>
      rw [h2] at h
      dsimp only at h
      have : e2 = e := Except.error.injEq _ _ ▸ h
      exact this ▸ pySubscript_error dp "language" e2 h2
    | ok lang =>
      rw [h2] at h
      dsimp only at h
      cases h4 : pySubscript dp "title" with
      | error e4 =>
        rw [h4] at h
        dsimp only at h
        have : e4 = e := Except.error.injEq _ _ ▸ h
        exact this ▸ pySubscript_error dp "title" e4 h4
      | ok title => rw [h4] at h; cases h

/-- Claim C5: when the decoded metadata has no usable
`doc_props.language` / `doc_props.title` fields, so that the field accesses
raise, `getBookMetadata` returns the configured default target language and
the book file base name without its extension instead of propagating the
error. -/
theorem claim5_metadata_fallback (decode : String → PyVal)
    (langdefault path text : String) (e : PyErr)
    (h : docPropsAccess (decode (preprocessMetadata text)) = Except.error e) :
    getBookMetadata decode langdefault path (Except.ok text) =
      Except.ok (PyVal.str langdefault, PyVal.str (basenameNoExt path)) := by
  have he := docPropsAccess_error _ _ h
  unfold getBookMetadata
  dsimp only
  rcases he with he | he <;> subst he <;> rw [h]

/-- Witness for claim C5: a decode producing an empty dict makes the
`doc_props` access raise `KeyError`, and the fallback produces the default
language and the extension-free base name. -/
theorem claim5_witness :
    docPropsAccess ((fun _ => PyVal.dict [])
      (preprocessMetadata "header\nrest")) = Except.error PyErr.keyError ∧
    getBookMetadata (fun _ => PyVal.dict []) "en" "books/war.epub"
        (Except.ok "header\nrest") =
      Except.ok (PyVal.str "en", PyVal.str "war") :=
  ⟨rfl, claim5_metadata_fallback (fun _ => PyVal.dict []) "en"
    "books/war.epub" "header\nrest" PyErr.keyError rfl⟩

theorem collectMeta_error (g : String → Except PyErr (PyVal × PyVal))
    (l : List String) (f : String) (e : PyErr) (hmem : f ∈ l)
    (hfail : g f = Except.error e) :
    ∃ e2, collectMeta g l = Except.error e2 := by
  induction l with
  | nil => cases hmem
  | cons x xs ih =>
    cases hg : g x with
    | error e2 => exact ⟨e2, by simp [collectMeta, hg]⟩
    | ok m =>
      rcases List.mem_cons.mp hmem with hfx | hfx
      · subst hfx; rw [hfail] at hg; cases hg
      · obtain ⟨e2, h2⟩ := ih hfx
        refine ⟨e2, ?_⟩
        simp only [collectMeta, hg, h2]
        rfl

/-- Counterexample to claim C6: two books, the second with an unreadable
metadata file; the run aborts with the exception and produces no reading
note at all, although the first book alone would have produced one.  The
failure is therefore not absorbed at item granularity. -/
theorem claim6_counterexample :
    (getNotesFull (fun s => [s])
        (fun _ => PyVal.dict [(PyKey.s "doc_props", PyVal.dict
          [(PyKey.s "language", PyVal.str "en"),
           (PyKey.s "title", PyVal.str "Alpha")])])
        (fun _ => "T") "en" ["A.epub", "B.epub"]
        (fun f => if f = "A.epub" then Except.ok "hdr\nrest"
          else Except.error PyErr.typeError)
        [(1, "Alpha")]
        [⟨0, "run", 1, Option.some "She began to", Option.some "fast."⟩]
        Option.none).2 = Except.error PyErr.typeError ∧
    (getNotesFull (fun s => [s])
        (fun _ => PyVal.dict [(PyKey.s "doc_props", PyVal.dict
          [(PyKey.s "language", PyVal.str "en"),
           (PyKey.s "title", PyVal.str "Alpha")])])
        (fun _ => "T") "en" ["A.epub"]
        (fun f => if f = "A.epub" then Except.ok "hdr\nrest"
          else Except.error PyErr.typeError)
        [(1, "Alpha")]
        [⟨0, "run", 1, Option.some "She began to", Option.some "fast."⟩]
        Option.none).2 =
      Except.ok [⟨"run", "She began to run fast.", "Alpha", "T"⟩] :=
  ⟨rfl, rfl⟩

/-- Claim C6 as amended: a book whose companion metadata file cannot be read
is not skipped; the exception propagates out of the metadata scan, the run
makes no recorder call and returns no reading note. -/
theorem claim6_amended_metadata_failure_aborts (sp : String → List String)
    (decode : String → PyVal) (fd : Int → String) (langcode : String)
    (bookfiles : List String) (readText : String → Except PyErr String)
    (titleRows : List (Int × String)) (vocabRows : List VocabRow)
    (hist : Option String) (f : String) (e : PyErr)
    (hmem : f ∈ bookfiles) (hfail : readText f = Except.error e) :
    ∃ e2, getNotesFull sp decode fd langcode bookfiles readText titleRows
      vocabRows hist = ([], Except.error e2) := by
  have hg : getBookMetadata decode langcode f (readText f) =
      Except.error e := by rw [hfail]; rfl
  obtain ⟨e2, h2⟩ := collectMeta_error
    (fun f => getBookMetadata decode langcode f (readText f)) bookfiles f e
    hmem hg
  refine ⟨e2, ?_⟩
  unfold getNotesFull
  rw [h2]

/-- Witness for claim C6 as amended: a single book with an unreadable
metadata file aborts the run. -/
theorem claim6_witness :
    "B.epub" ∈ ["B.epub"] ∧
    ∃ e2, getNotesFull (fun s => [s]) (fun _ => PyVal.none) (fun _ => "T")
      "en" ["B.epub"] (fun _ => Except.error PyErr.typeError) [] []
      Option.none = ([], Except.error e2) :=
  ⟨List.mem_singleton.mpr rfl,
   claim6_amended_metadata_failure_aborts (fun s => [s]) (fun _ => PyVal.none)
     (fun _ => "T") "en" ["B.epub"] (fun _ => Except.error PyErr.typeError)
     [] [] Option.none "B.epub" PyErr.typeError
     (List.mem_singleton.mpr rfl) rfl⟩

end KoreaderImport
